import Mathlib

/-!
Shallow embedding of `apps/predbat/history_cache.py` (class `HistoryCache`):
an in-memory, time-windowed cache for history records keyed by entity id.

Modelling choices:
* A Python datetime is an integer timeline point (`Int`).
* A value occurring in a `new_data` sequence is a `PyVal`: a dict carrying an
  optional `last_changed` string plus an opaque payload tag, a nested list
  (the upstream nested-response shape), or any other non-dict value.
* `datetime.fromisoformat` and `str.lower` are external library routines;
  they are modelled by concrete character-level functions with both
  parseable and unparseable inputs (the cache only branches on parse
  success and compares parsed values).
* The mutable cache dictionary is explicit state passed through each
  operation; `get_or_fetch` additionally returns the list of invocations of
  the supplied fetch function (argument triples, in order) and models a
  raised exception with `Except`.
-/

/-- A dynamic value as seen by `update_cache` / `get_or_fetch`. -/
inductive PyVal : Type where
  | dict : Option String → Nat → PyVal
  | list : List PyVal → PyVal
  | other : Nat → PyVal
deriving Repr

/-- `{"data": [history_items], "latest": datetime-or-None}` of one entity. -/
structure CacheEntry : Type where
  data : List PyVal
  latest : Option Int
deriving Repr

/-- The `HistoryCache` object: its entity map and the `enabled` flag. -/
structure HistoryCache : Type where
  cache_data : List (String × CacheEntry)
  enabled : Bool
deriving Repr

/-- Python `dict.get`: first binding of a key in the association list. -/
def alLookup {α : Type} : List (String × α) → String → Option α
  | [], _ => none
  | (k, v) :: rest, key => if k = key then some v else alLookup rest key

/-- Python `d[key] = v`: overwrite an existing binding, else append. -/
def alInsert {α : Type} : List (String × α) → String → α → List (String × α)
  | [], key, v => [(key, v)]
  | (k, w) :: rest, key, v =>
      if k = key then (key, v) :: rest else (k, w) :: alInsert rest key v

/-- ASCII lowercasing of one character, as Python `str.lower` does per char. -/
def pyLowerChar (c : Char) : Char :=
  if 65 ≤ c.toNat ∧ c.toNat ≤ 90 then Char.ofNat (c.toNat + 32) else c

/-- Python `entity_id.lower()` (external string routine, modelled per char). -/
def pyLower (s : String) : String := String.mk (s.data.map pyLowerChar)

/-- Decimal digit value of a character, else `none`. -/
def digitVal (c : Char) : Option Nat :=
  if 48 ≤ c.toNat ∧ c.toNat ≤ 57 then some (c.toNat - 48) else none

/-- Accumulate decimal digits; any non-digit character fails the parse. -/
def parseDigitsAux : List Char → Nat → Option Nat
  | [], acc => some acc
  | c :: rest, acc =>
      match digitVal c with
      | some d => parseDigitsAux rest (acc * 10 + d)
      | none => none

/-- Stand-in for `datetime.fromisoformat` (an external library call): a
concrete total parser with both succeeding and failing inputs. The cache
only branches on parse success and compares parsed values. -/
def fromisoformat (s : String) : Option Int :=
  match s.data with
  | [] => none
  | cs => (parseDigitsAux cs 0).map Int.ofNat

/-- `HistoryCache._get_timestamp`: `None` unless the item is a dict whose
`last_changed` field is a truthy string that parses. -/
def get_timestamp : PyVal → Option Int
  | PyVal.dict lc _ =>
      match lc with
      | none => none
      | some s => if s = "" then none else fromisoformat s
  | _ => none

/-- `if latest_time is None or timestamp > latest_time: latest_time = timestamp`. -/
def omax (latest : Option Int) (ts : Int) : Option Int :=
  match latest with
  | none => some ts
  | some l => if ts > l then some ts else some l

/-- Sort key comparison: Python sorts by `_get_timestamp(x) or datetime.min`,
so an absent timestamp compares below every present one. -/
def tsKeyLE (a b : Option Int) : Bool :=
  match a, b with
  | none, _ => true
  | some _, none => false
  | some x, some y => decide (x ≤ y)

/-- The `for item in new_data` loop of `update_cache`: skip non-dicts, skip
items without a parsed timestamp, skip timestamps already present in the
(frozen) `existing_timestamps` set, append the rest and track the max. -/
def addNewItems (existing_timestamps : List Int) :
    List PyVal → List PyVal → Option Int → List PyVal × Option Int
  | [], ed, latest => (ed, latest)
  | item :: rest, ed, latest =>
      match item with
      | PyVal.dict lc p =>
          match get_timestamp (PyVal.dict lc p) with
          | some ts =>
              if ts ∈ existing_timestamps then
                addNewItems existing_timestamps rest ed latest
              else
                addNewItems existing_timestamps rest (ed ++ [PyVal.dict lc p]) (omax latest ts)
          | none => addNewItems existing_timestamps rest ed latest
      | _ => addNewItems existing_timestamps rest ed latest

/-- The sort-key order on items, as a decidable relation. -/
def itemLE (a b : PyVal) : Prop :=
  tsKeyLE (get_timestamp a) (get_timestamp b) = true

instance : DecidableRel itemLE := fun a b =>
  instDecidableEqBool (tsKeyLE (get_timestamp a) (get_timestamp b)) true

/-- `existing_data.sort(key=lambda x: self._get_timestamp(x) or datetime.min)`:
Python's stable sort; insertion sort with insert-before-first-not-below is
stable, hence computes the same list. -/
def sortByTs (l : List PyVal) : List PyVal :=
  List.insertionSort itemLE l

/-- Nested list structure from the HA API: `[[items...]] -> [items...]`,
a single non-recursive unwrap applied when the first element is a list. -/
def normalizeNewData (new_data : List PyVal) : List PyVal :=
  match new_data with
  | PyVal.list l :: _ => l
  | _ => new_data

/-- `if entity_key not in self.cache_data: self.cache_data[entity_key] =
{"data": [], "latest": None}`. -/
def ensureEntry (cd : List (String × CacheEntry)) (key : String) :
    List (String × CacheEntry) :=
  if (alLookup cd key).isNone then alInsert cd key ⟨[], none⟩ else cd

/-- The merge body of `update_cache` on one entry: build the frozen set of
existing timestamps, run the insertion loop, then sort. -/
def mergeEntry (e : CacheEntry) (new_data : List PyVal) : CacheEntry :=
  let existing_timestamps := e.data.filterMap get_timestamp
  let r := addNewItems existing_timestamps new_data e.data e.latest
  ⟨sortByTs r.1, r.2⟩

/-- `HistoryCache.update_cache(entity_id, new_data, end_time)`.
A Python `None` argument behaves exactly like `[]` (both fail `if new_data:`),
so `new_data` is passed as a plain list. -/
def update_cache (c : HistoryCache) (entity_id : String) (new_data0 : List PyVal)
    (_end_time : Int) : HistoryCache :=
  if !c.enabled || new_data0.isEmpty then c
  else
    let new_data := normalizeNewData new_data0
    let entity_key := pyLower entity_id
    let cd := ensureEntry c.cache_data entity_key
    let cache_entry := (alLookup cd entity_key).getD ⟨[], none⟩
    { c with cache_data := alInsert cd entity_key (mergeEntry cache_entry new_data) }

/-- The in-place prune of `get_or_fetch`: pop leading items whose parsed
timestamp is strictly below `start_time`, stopping at the first item without
a parseable timestamp or with a timestamp not below `start_time`. -/
def pruneLeading (start_time : Int) : List PyVal → List PyVal
  | [] => []
  | item :: rest =>
      match get_timestamp item with
      | some ts => if ts < start_time then pruneLeading start_time rest else item :: rest
      | none => item :: rest

/-- Python truthiness of a fetch result (`None` and `[]` are falsy). -/
def isTruthy : Option (List PyVal) → Bool
  | none => false
  | some l => !l.isEmpty

/-- Final filter of `get_or_fetch`: keep items with a parsed timestamp that
is at most `end_time`. -/
def filterLeEnd (end_time : Int) (l : List PyVal) : List PyVal :=
  l.filter fun item =>
    match get_timestamp item with
    | some ts => decide (ts ≤ end_time)
    | none => false

/-- `HistoryCache.get_or_fetch(entity_id, start_time, end_time, fetch_func,
minimal)`. Returns the Python return value (an exception modelled by
`Except.error`), the cache state after the call, and the list of fetch
invocations made (first argument is `Option Int` because an existing entry's
`latest` bookkeeping value, which may be `None`, is passed through). -/
def get_or_fetch {ε : Type} (c : HistoryCache) (entity_id : String)
    (start_time end_time : Int)
    (fetch_func : Option Int → Int → Bool → Except ε (Option (List PyVal)))
    (minimal : Bool) :
    Except ε (Option (List PyVal)) × HistoryCache × List (Option Int × Int × Bool) :=
  if !c.enabled then
    (fetch_func (some start_time) end_time minimal, c,
      [(some start_time, end_time, minimal)])
  else
    let entity_key := pyLower entity_id
    match alLookup c.cache_data entity_key with
    | none =>
        -- no entry: fetch the full requested window and return it verbatim
        match fetch_func (some start_time) end_time minimal with
        | Except.error err => (Except.error err, c, [(some start_time, end_time, minimal)])
        | Except.ok new_data =>
            let c1 := if isTruthy new_data then
                update_cache c entity_id (new_data.getD []) end_time
              else c
            (Except.ok new_data, c1, [(some start_time, end_time, minimal)])
    | some cache_entry =>
        -- entry exists: fetch the delta window from the entry's latest
        let latest_time := cache_entry.latest
        match fetch_func latest_time end_time minimal with
        | Except.error err => (Except.error err, c, [(latest_time, end_time, minimal)])
        | Except.ok new_data =>
            let c1 := if isTruthy new_data then
                update_cache c entity_id (new_data.getD []) end_time
              else c
            let entry1 := (alLookup c1.cache_data entity_key).getD ⟨[], none⟩
            let data1 := pruneLeading start_time entry1.data
            let c2 := { c1 with
              cache_data := alInsert c1.cache_data entity_key ⟨data1, entry1.latest⟩ }
            (Except.ok (some (filterLeEnd end_time data1)), c2,
              [(latest_time, end_time, minimal)])

/-- `HistoryCache.configure(enabled)`. -/
def configure (c : HistoryCache) (enabled : Bool) : HistoryCache :=
  if enabled then { c with enabled := enabled }
  else { cache_data := [], enabled := enabled }

/-- The items the `update_cache` loop actually appends: dict items with a
parsed timestamp not in the frozen existing set, in input order. -/
def insertedItems (ex : List Int) : List PyVal → List PyVal
  | [] => []
  | item :: rest =>
      match item with
      | PyVal.dict lc p =>
          match get_timestamp (PyVal.dict lc p) with
          | some ts =>
              if ts ∈ ex then insertedItems ex rest
              else PyVal.dict lc p :: insertedItems ex rest
          | none => insertedItems ex rest
      | _ => insertedItems ex rest

/-- The maximum parsed timestamp among a list of items (`none` if no item
has one), folded exactly as the loop folds `latest_time`. -/
def maxTs (l : List PyVal) : Option Int :=
  List.foldl omax none (l.filterMap get_timestamp)

/-- Invariant of one cache entry: items sorted ascending by timestamp key,
and `latest` equal to the maximum parsed timestamp present. -/
def EntryInvariant (e : CacheEntry) : Prop :=
  e.data.Pairwise itemLE ∧ e.latest = maxTs e.data

/-- The entry invariant, for every entry of the cache. -/
def CacheInvariant (c : HistoryCache) : Prop :=
  ∀ k e, alLookup c.cache_data k = some e → EntryInvariant e

theorem alLookup_alInsert_self {α : Type} (l : List (String × α)) (k : String) (v : α) :
    alLookup (alInsert l k v) k = some v := by
  induction l with
  | nil => simp [alInsert, alLookup]
  | cons hd tl ih =>
    obtain ⟨k0, v0⟩ := hd
    by_cases hk : k0 = k
    · simp [alInsert, hk, alLookup]
    · simp [alInsert, hk, alLookup, ih]

theorem alLookup_alInsert_cases {α : Type} (l : List (String × α)) (k k0 : String)
    (v w : α) (h : alLookup (alInsert l k v) k0 = some w) :
    w = v ∨ alLookup l k0 = some w := by
  induction l with
  | nil =>
    simp [alInsert, alLookup] at h
    rcases h with ⟨hk, hv⟩
    exact Or.inl hv.symm
  | cons hd tl ih =>
    obtain ⟨k1, v1⟩ := hd
    by_cases hk : k1 = k
    · subst hk
      simp [alInsert] at h
      by_cases hk0 : k1 = k0
      · subst hk0
        simp [alLookup] at h ⊢
        exact Or.inl h.symm
      · simp [alLookup, hk0] at h ⊢
        exact Or.inr h
    · simp [alInsert, hk] at h
      by_cases hk0 : k1 = k0
      · subst hk0
        simp [alLookup] at h ⊢
        exact Or.inr h
      · simp [alLookup, hk0] at h ⊢
        exact ih h

theorem alInsert_lookup_self {α : Type} (l : List (String × α)) (k : String) (v : α)
    (h : alLookup l k = some v) : alInsert l k v = l := by
  induction l with
  | nil => simp [alLookup] at h
  | cons hd tl ih =>
    obtain ⟨k1, v1⟩ := hd
    by_cases hk : k1 = k
    · subst hk
      simp [alLookup] at h
      simp [alInsert, h]
    · simp [alLookup, hk] at h
      simp [alInsert, hk, ih h]

theorem lookup_ensureEntry_self (cd : List (String × CacheEntry)) (key : String) :
    alLookup (ensureEntry cd key) key = some ((alLookup cd key).getD ⟨[], none⟩) := by
  cases h : alLookup cd key with
  | none => simp [ensureEntry, h, alLookup_alInsert_self]
  | some v => simp [ensureEntry, h]

theorem lookup_ensureEntry_cases (cd : List (String × CacheEntry)) (key k : String)
    (e : CacheEntry) (h : alLookup (ensureEntry cd key) k = some e) :
    e = ⟨[], none⟩ ∨ alLookup cd k = some e := by
  by_cases hl : (alLookup cd key).isNone
  · simp [ensureEntry, hl] at h
    exact alLookup_alInsert_cases cd key k ⟨[], none⟩ e h
  · simp [ensureEntry, hl] at h
    exact Or.inr h

theorem tsKeyLE_trans (a b c : Option Int) (h1 : tsKeyLE a b = true)
    (h2 : tsKeyLE b c = true) : tsKeyLE a c = true := by
  cases a <;> cases b <;> cases c <;> simp [tsKeyLE] at * <;> omega

theorem tsKeyLE_total (a b : Option Int) : tsKeyLE a b = true ∨ tsKeyLE b a = true := by
  cases a <;> cases b <;> simp [tsKeyLE] <;> omega

instance : IsTrans PyVal itemLE :=
  ⟨fun _ _ _ h1 h2 => tsKeyLE_trans _ _ _ h1 h2⟩

instance : IsTotal PyVal itemLE :=
  ⟨fun a b => tsKeyLE_total (get_timestamp a) (get_timestamp b)⟩

theorem sortByTs_perm (l : List PyVal) : (sortByTs l).Perm l :=
  List.perm_insertionSort itemLE l

theorem sortByTs_sorted (l : List PyVal) : (sortByTs l).Pairwise itemLE :=
  List.sorted_insertionSort itemLE l

theorem sortByTs_of_sorted {l : List PyVal} (h : l.Pairwise itemLE) :
    sortByTs l = l :=
  List.Sorted.insertionSort_eq h

theorem omax_some (a x : Int) : omax (some a) x = some (max a x) := by
  show (if x > a then some x else some a) = some (max a x)
  rcases lt_or_le a x with h | h
  · rw [if_pos h, max_eq_right h.le]
  · rw [if_neg (not_lt.mpr h), max_eq_left h]

theorem omax_right_comm (a : Option Int) (x y : Int) :
    omax (omax a x) y = omax (omax a y) x := by
  cases a with
  | none =>
    show omax (some x) y = omax (some y) x
    rw [omax_some, omax_some, max_comm]
  | some a =>
    rw [omax_some, omax_some, omax_some, omax_some]
    congr 1
    omega

instance : RightCommutative omax :=
  ⟨fun b a1 a2 => omax_right_comm b a1 a2⟩

theorem maxTs_perm {l l2 : List PyVal} (p : l.Perm l2) : maxTs l = maxTs l2 :=
  List.Perm.foldl_eq (List.Perm.filterMap get_timestamp p) none

theorem maxTs_append (a b : List PyVal) :
    maxTs (a ++ b) = List.foldl omax (maxTs a) (b.filterMap get_timestamp) := by
  simp [maxTs, List.filterMap_append, List.foldl_append]

theorem foldl_omax_some (xs : List Int) (a : Int) :
    List.foldl omax (some a) xs = some (List.foldl max a xs) := by
  induction xs generalizing a with
  | nil => rfl
  | cons x rest ih => simp [List.foldl, omax_some, ih]

theorem foldl_max_le (xs : List Int) (a b : Int) (ha : a ≤ b)
    (hxs : ∀ x ∈ xs, x ≤ b) : List.foldl max a xs ≤ b := by
  induction xs generalizing a with
  | nil => exact ha
  | cons x rest ih =>
    simp only [List.foldl]
    refine ih (max a x) (max_le ha (hxs x (by simp))) ?_
    intro y hy
    exact hxs y (by simp [hy])

theorem addNewItems_eq (ex : List Int) (nd : List PyVal) :
    ∀ ed latest, addNewItems ex nd ed latest =
      (ed ++ insertedItems ex nd,
       List.foldl omax latest ((insertedItems ex nd).filterMap get_timestamp)) := by
  induction nd with
  | nil => intro ed latest; simp [addNewItems, insertedItems]
  | cons item rest ih =>
    intro ed latest
    cases item with
    | dict lc p =>
      cases hts : get_timestamp (PyVal.dict lc p) with
      | none => simp [addNewItems, insertedItems, hts, ih]
      | some ts =>
        by_cases hmem : ts ∈ ex
        · simp [addNewItems, insertedItems, hts, hmem, ih]
        · simp [addNewItems, insertedItems, hts, hmem, ih, List.filterMap_cons]
    | list l => simp [addNewItems, insertedItems, ih]
    | other n => simp [addNewItems, insertedItems, ih]

theorem mergeEntry_eq (e : CacheEntry) (nd : List PyVal) :
    mergeEntry e nd =
      ⟨sortByTs (e.data ++ insertedItems (e.data.filterMap get_timestamp) nd),
       List.foldl omax e.latest
         ((insertedItems (e.data.filterMap get_timestamp) nd).filterMap get_timestamp)⟩ := by
  simp [mergeEntry, addNewItems_eq]

theorem insertedItems_filterMap (ex : List Int) (nd : List PyVal) :
    (insertedItems ex nd).filterMap get_timestamp
      = (nd.filterMap get_timestamp).filter (fun t => !(decide (t ∈ ex))) := by
  induction nd with
  | nil => simp [insertedItems]
  | cons item rest ih =>
    cases item with
    | dict lc p =>
      cases hts : get_timestamp (PyVal.dict lc p) with
      | none => simp [insertedItems, hts, ih]
      | some ts =>
        by_cases hmem : ts ∈ ex
        · simp [insertedItems, hts, hmem, ih, List.filterMap_cons, List.filter_cons]
        · simp [insertedItems, hts, hmem, ih, List.filterMap_cons, List.filter_cons]
    | list l => simp [insertedItems, get_timestamp, ih]
    | other n => simp [insertedItems, get_timestamp, ih]

theorem insertedItems_eq_nil (ex : List Int) (nd : List PyVal)
    (h : ∀ t ∈ nd.filterMap get_timestamp, t ∈ ex) : insertedItems ex nd = [] := by
  induction nd with
  | nil => rfl
  | cons item rest ih =>
    cases item with
    | dict lc p =>
      cases hts : get_timestamp (PyVal.dict lc p) with
      | none =>
        simp [insertedItems, hts]
        exact ih fun t ht =>
          h t (by rw [List.filterMap_cons]; simp only [hts]; exact ht)
      | some ts =>
        have hmem : ts ∈ ex :=
          h ts (by rw [List.filterMap_cons]; simp only [hts]; exact List.mem_cons_self ts _)
        simp [insertedItems, hts, hmem]
        exact ih fun t ht =>
          h t (by rw [List.filterMap_cons]; simp only [hts]; exact List.mem_cons_of_mem _ ht)
    | list l =>
      simp [insertedItems]
      exact ih fun t ht => h t (by rw [List.filterMap_cons]; exact ht)
    | other n =>
      simp [insertedItems]
      exact ih fun t ht => h t (by rw [List.filterMap_cons]; exact ht)

theorem entryInvariant_empty : EntryInvariant ⟨[], none⟩ :=
  ⟨List.Pairwise.nil, rfl⟩

theorem update_cache_noop (c : HistoryCache) (eid : String) (nd : List PyVal)
    (t : Int) (h : c.enabled = false ∨ nd.isEmpty = true) :
    update_cache c eid nd t = c := by
  rcases h with h | h
  · simp [update_cache, h]
  · simp [update_cache, h]

theorem update_cache_eq (c : HistoryCache) (eid : String) (nd0 : List PyVal) (t : Int)
    (hen : c.enabled = true) (hne : nd0.isEmpty = false) :
    update_cache c eid nd0 t =
      HistoryCache.mk
        (alInsert (ensureEntry c.cache_data (pyLower eid)) (pyLower eid)
          (mergeEntry
            ((alLookup (ensureEntry c.cache_data (pyLower eid)) (pyLower eid)).getD
              ⟨[], none⟩)
            (normalizeNewData nd0)))
        c.enabled := by
  simp [update_cache, hen, hne]

theorem update_cache_enabled (c : HistoryCache) (eid : String) (nd : List PyVal)
    (t : Int) : (update_cache c eid nd t).enabled = c.enabled := by
  unfold update_cache
  split
  · rfl
  · rfl

theorem mergeEntry_invariant (e : CacheEntry) (nd : List PyVal)
    (h : EntryInvariant e) : EntryInvariant (mergeEntry e nd) := by
  rw [mergeEntry_eq]
  refine ⟨sortByTs_sorted _, ?_⟩
  show List.foldl omax e.latest _ = maxTs (sortByTs _)
  rw [maxTs_perm (sortByTs_perm _), maxTs_append, h.2]

theorem update_cache_invariant (c : HistoryCache) (eid : String) (nd : List PyVal)
    (t : Int) (h : CacheInvariant c) : CacheInvariant (update_cache c eid nd t) := by
  by_cases hen : c.enabled = true
  · by_cases hne : nd.isEmpty = false
    · rw [update_cache_eq c eid nd t hen hne]
      intro k e hk
      rcases alLookup_alInsert_cases _ _ _ _ _ hk with he | he
      · subst he
        apply mergeEntry_invariant
        rw [lookup_ensureEntry_self]
        cases hl : alLookup c.cache_data (pyLower eid) with
        | none => exact entryInvariant_empty
        | some v => exact h _ _ hl
      · rcases lookup_ensureEntry_cases _ _ _ _ he with he2 | he2
        · subst he2; exact entryInvariant_empty
        · exact h _ _ he2
    · have hv : nd.isEmpty = true := by
        cases hv : nd.isEmpty
        · exact absurd hv hne
        · rfl
      rw [update_cache_noop c eid nd t (Or.inr hv)]
      exact h
  · have hv : c.enabled = false := by
      cases hv : c.enabled
      · rfl
      · exact absurd hv hen
    rw [update_cache_noop c eid nd t (Or.inl hv)]
    exact h

theorem tsKeyLE_some_left {x : Int} {b : Option Int}
    (h : tsKeyLE (some x) b = true) : ∃ y, b = some y ∧ x ≤ y := by
  cases b with
  | none => simp [tsKeyLE] at h
  | some y =>
    simp [tsKeyLE] at h
    exact ⟨y, rfl, h⟩

theorem pruneLeading_decomp (t : Int) (l : List PyVal) :
    ∃ pre, l = pre ++ pruneLeading t l ∧
      ∀ x ∈ pre, ∃ ts, get_timestamp x = some ts ∧ ts < t := by
  induction l with
  | nil => exact ⟨[], rfl, by simp⟩
  | cons item rest ih =>
    cases hts : get_timestamp item with
    | none => exact ⟨[], by simp [pruneLeading, hts], by simp⟩
    | some ts =>
      by_cases hlt : ts < t
      · obtain ⟨pre, heq, hall⟩ := ih
        refine ⟨item :: pre, ?_, ?_⟩
        · have : pruneLeading t (item :: rest) = pruneLeading t rest := by
            simp [pruneLeading, hts, hlt]
          rw [this, List.cons_append, ← heq]
        · intro x hx
          rcases List.mem_cons.mp hx with rfl | hx
          · exact ⟨ts, hts, hlt⟩
          · exact hall x hx
      · exact ⟨[], by simp [pruneLeading, hts, hlt], by simp⟩

theorem maxTs_pruneLeading (d : List PyVal) (t : Int) (hs : d.Pairwise itemLE)
    (hne : pruneLeading t d ≠ []) : maxTs (pruneLeading t d) = maxTs d := by
  obtain ⟨pre, heq, hall⟩ := pruneLeading_decomp t d
  cases hpre : pre with
  | nil =>
    conv_rhs => rw [heq]
    rw [hpre, List.nil_append]
  | cons p ps =>
    subst hpre
    cases hsuf : pruneLeading t d with
    | nil => exact absurd hsuf hne
    | cons y ys =>
      rw [heq, hsuf] at hs
      obtain ⟨hpw_pre, hpw_suf, hcross⟩ := List.pairwise_append.mp hs
      obtain ⟨tp, htp, _⟩ := hall p (by simp)
      have hcy : itemLE p y := hcross p (by simp) y (by simp)
      rw [itemLE, htp] at hcy
      obtain ⟨ty, hty, htple⟩ := tsKeyLE_some_left hcy
      -- every timestamp in pre is at most ty
      have hprele : ∀ x ∈ ((p :: ps).filterMap get_timestamp), x ≤ ty := by
        intro x hx
        obtain ⟨q, hq, hqx⟩ := List.mem_filterMap.mp hx
        have hcq : itemLE q y := hcross q hq y (by simp)
        rw [itemLE, hqx] at hcq
        obtain ⟨ty2, hty2, hle2⟩ := tsKeyLE_some_left hcq
        rw [hty] at hty2
        injection hty2 with hty2
        omega
      have hfm_suf : (y :: ys).filterMap get_timestamp = ty :: ys.filterMap get_timestamp := by
        rw [List.filterMap_cons]
        simp [hty]
      have hfm_pre : (p :: ps).filterMap get_timestamp = tp :: ps.filterMap get_timestamp := by
        rw [List.filterMap_cons]
        simp [htp]
      have hmax_pre : maxTs (p :: ps)
          = some (List.foldl max tp (ps.filterMap get_timestamp)) := by
        rw [maxTs, hfm_pre, List.foldl_cons]
        exact foldl_omax_some _ _
      have hmax_suf : maxTs (y :: ys)
          = some (List.foldl max ty (ys.filterMap get_timestamp)) := by
        rw [maxTs, hfm_suf, List.foldl_cons]
        exact foldl_omax_some _ _
      have hP : List.foldl max tp (ps.filterMap get_timestamp) ≤ ty := by
        apply foldl_max_le
        · exact htple
        · intro x hx
          exact hprele x (by rw [hfm_pre]; exact List.mem_cons_of_mem _ hx)
      have hrhs : maxTs (p :: ps ++ y :: ys)
          = some (List.foldl max ty (ys.filterMap get_timestamp)) := by
        rw [maxTs_append, hfm_suf, hmax_pre, List.foldl_cons, omax_some,
          max_eq_right hP, foldl_omax_some]
      have hd : maxTs d = maxTs (p :: ps ++ y :: ys) := by
        rw [← hsuf, ← heq]
      rw [hmax_suf, hd, hrhs]

theorem pruneEntry_invariant (e : CacheEntry) (t : Int) (h : EntryInvariant e) :
    (pruneLeading t e.data).Pairwise itemLE ∧
      (pruneLeading t e.data ≠ [] → e.latest = maxTs (pruneLeading t e.data)) := by
  obtain ⟨pre, heq, _⟩ := pruneLeading_decomp t e.data
  constructor
  · have hp := h.1
    rw [heq] at hp
    exact (List.pairwise_append.mp hp).2.1
  · intro hne
    rw [h.2, ← maxTs_pruneLeading e.data t h.1 hne]

theorem get_or_fetch_disabled {ε : Type} (c : HistoryCache) (eid : String)
    (t0 t1 : Int) (f : Option Int → Int → Bool → Except ε (Option (List PyVal)))
    (m : Bool) (hen : c.enabled = false) :
    get_or_fetch c eid t0 t1 f m = (f (some t0) t1 m, c, [(some t0, t1, m)]) := by
  simp [get_or_fetch, hen]

theorem get_or_fetch_no_entry_ok {ε : Type} (c : HistoryCache) (eid : String)
    (t0 t1 : Int) (f : Option Int → Int → Bool → Except ε (Option (List PyVal)))
    (m : Bool) (hen : c.enabled = true)
    (hlk : alLookup c.cache_data (pyLower eid) = none)
    (nd : Option (List PyVal)) (hf : f (some t0) t1 m = Except.ok nd) :
    get_or_fetch c eid t0 t1 f m =
      (Except.ok nd,
       if isTruthy nd then update_cache c eid (nd.getD []) t1 else c,
       [(some t0, t1, m)]) := by
  simp [get_or_fetch, hen, hlk, hf]

theorem get_or_fetch_no_entry_error {ε : Type} (c : HistoryCache) (eid : String)
    (t0 t1 : Int) (f : Option Int → Int → Bool → Except ε (Option (List PyVal)))
    (m : Bool) (hen : c.enabled = true)
    (hlk : alLookup c.cache_data (pyLower eid) = none)
    (err : ε) (hf : f (some t0) t1 m = Except.error err) :
    get_or_fetch c eid t0 t1 f m = (Except.error err, c, [(some t0, t1, m)]) := by
  simp [get_or_fetch, hen, hlk, hf]

theorem get_or_fetch_entry_error {ε : Type} (c : HistoryCache) (eid : String)
    (t0 t1 : Int) (f : Option Int → Int → Bool → Except ε (Option (List PyVal)))
    (m : Bool) (hen : c.enabled = true) (entry : CacheEntry)
    (hlk : alLookup c.cache_data (pyLower eid) = some entry)
    (err : ε) (hf : f entry.latest t1 m = Except.error err) :
    get_or_fetch c eid t0 t1 f m = (Except.error err, c, [(entry.latest, t1, m)]) := by
  simp [get_or_fetch, hen, hlk, hf]

theorem get_or_fetch_entry_ok {ε : Type} (c : HistoryCache) (eid : String)
    (t0 t1 : Int) (f : Option Int → Int → Bool → Except ε (Option (List PyVal)))
    (m : Bool) (hen : c.enabled = true) (entry : CacheEntry)
    (hlk : alLookup c.cache_data (pyLower eid) = some entry)
    (nd : Option (List PyVal)) (hf : f entry.latest t1 m = Except.ok nd)
    (c1 : HistoryCache)
    (hc1 : c1 = if isTruthy nd then update_cache c eid (nd.getD []) t1 else c)
    (entry1 : CacheEntry)
    (he1 : entry1 = (alLookup c1.cache_data (pyLower eid)).getD ⟨[], none⟩) :
    get_or_fetch c eid t0 t1 f m =
      (Except.ok (some (filterLeEnd t1 (pruneLeading t0 entry1.data))),
       HistoryCache.mk
         (alInsert c1.cache_data (pyLower eid)
           ⟨pruneLeading t0 entry1.data, entry1.latest⟩)
         c1.enabled,
       [(entry.latest, t1, m)]) := by
  subst hc1
  subst he1
  simp [get_or_fetch, hen, hlk, hf]

/-- C6: on a disabled cache, `get_or_fetch` calls the fetch function exactly
once with `(start_time, end_time, minimal)`, returns its result verbatim,
and leaves the cache state (entity mapping and every entry) unchanged. -/
theorem C6_disabled_passthrough {ε : Type} (c : HistoryCache) (eid : String)
    (t0 t1 : Int) (f : Option Int → Int → Bool → Except ε (Option (List PyVal)))
    (m : Bool) (hen : c.enabled = false) :
    get_or_fetch c eid t0 t1 f m = (f (some t0) t1 m, c, [(some t0, t1, m)]) :=
  get_or_fetch_disabled c eid t0 t1 f m hen

theorem C6_disabled_passthrough_witness :
    get_or_fetch (HistoryCache.mk [] false) "e" 1 2
        (fun _ _ _ => (Except.ok (some [PyVal.other 0]) : Except Unit (Option (List PyVal))))
        false
      = (Except.ok (some [PyVal.other 0]), HistoryCache.mk [] false,
         [(some 1, 2, false)]) :=
  C6_disabled_passthrough (HistoryCache.mk [] false) "e" 1 2
    (fun _ _ _ => (Except.ok (some [PyVal.other 0]) : Except Unit (Option (List PyVal))))
    false rfl

/-- C5: whenever the supplied fetch function raises (modelled: every fetch
invocation for this call's `end_time`/`minimal` returns `Except.error err`),
`get_or_fetch` propagates exactly that error and the cache state after the
call equals the state before it. -/
theorem C5_fetch_error_propagates {ε : Type} (c : HistoryCache) (eid : String)
    (t0 t1 : Int) (f : Option Int → Int → Bool → Except ε (Option (List PyVal)))
    (m : Bool) (err : ε) (hf : ∀ s, f s t1 m = Except.error err) :
    (get_or_fetch c eid t0 t1 f m).1 = Except.error err ∧
      (get_or_fetch c eid t0 t1 f m).2.1 = c := by
  cases hen : c.enabled
  · rw [get_or_fetch_disabled c eid t0 t1 f m hen]
    exact ⟨hf _, rfl⟩
  · cases hlk : alLookup c.cache_data (pyLower eid) with
    | none =>
      rw [get_or_fetch_no_entry_error c eid t0 t1 f m hen hlk err (hf _)]
      exact ⟨rfl, rfl⟩
    | some entry =>
      rw [get_or_fetch_entry_error c eid t0 t1 f m hen entry hlk err (hf _)]
      exact ⟨rfl, rfl⟩

theorem C5_fetch_error_propagates_witness :
    (get_or_fetch (HistoryCache.mk [("e", ⟨[PyVal.dict (some "5") 0], some 5⟩)] true)
        "e" 1 2 (fun _ _ _ => (Except.error 42 : Except Nat (Option (List PyVal)))) false).1
      = Except.error 42 ∧
    (get_or_fetch (HistoryCache.mk [("e", ⟨[PyVal.dict (some "5") 0], some 5⟩)] true)
        "e" 1 2 (fun _ _ _ => (Except.error 42 : Except Nat (Option (List PyVal)))) false).2.1
      = HistoryCache.mk [("e", ⟨[PyVal.dict (some "5") 0], some 5⟩)] true :=
  C5_fetch_error_propagates
    (HistoryCache.mk [("e", ⟨[PyVal.dict (some "5") 0], some 5⟩)] true) "e" 1 2
    (fun _ _ _ => (Except.error 42 : Except Nat (Option (List PyVal)))) false 42
    (fun _ => rfl)

/-- C7: on an enabled cache with no entry for the lower-cased entity key,
`get_or_fetch` invokes the fetch function once with the full requested
window, returns the fetched data verbatim (not a re-read of the entry),
merges a truthy result via `update_cache`, and a truthy merge creates an
entry for the key. -/
theorem C7_cold_entity_full_fetch {ε : Type} (c : HistoryCache) (eid : String)
    (t0 t1 : Int) (f : Option Int → Int → Bool → Except ε (Option (List PyVal)))
    (m : Bool) (hen : c.enabled = true)
    (hlk : alLookup c.cache_data (pyLower eid) = none)
    (nd : Option (List PyVal)) (hf : f (some t0) t1 m = Except.ok nd) :
    (get_or_fetch c eid t0 t1 f m).1 = Except.ok nd ∧
    (get_or_fetch c eid t0 t1 f m).2.2 = [(some t0, t1, m)] ∧
    (get_or_fetch c eid t0 t1 f m).2.1
      = (if isTruthy nd then update_cache c eid (nd.getD []) t1 else c) ∧
    (isTruthy nd = true →
      (alLookup (get_or_fetch c eid t0 t1 f m).2.1.cache_data (pyLower eid)).isSome
        = true) := by
  rw [get_or_fetch_no_entry_ok c eid t0 t1 f m hen hlk nd hf]
  refine ⟨rfl, rfl, rfl, ?_⟩
  intro ht
  have hne : (nd.getD []).isEmpty = false := by
    cases nd with
    | none => simp [isTruthy] at ht
    | some l =>
      simp [isTruthy] at ht
      simpa [List.isEmpty_iff]
  simp only [ht, if_true]
  rw [update_cache_eq c eid (nd.getD []) t1 hen hne]
  simp [alLookup_alInsert_self]

theorem C7_cold_entity_full_fetch_witness :
    (get_or_fetch (HistoryCache.mk [] true) "Sensor.Temp" 3 5
        (fun _ _ _ => (Except.ok (some [PyVal.dict (some "3") 1, PyVal.dict (some "5") 2])
          : Except Unit (Option (List PyVal)))) false).1
      = Except.ok (some [PyVal.dict (some "3") 1, PyVal.dict (some "5") 2]) ∧
    (get_or_fetch (HistoryCache.mk [] true) "Sensor.Temp" 3 5
        (fun _ _ _ => (Except.ok (some [PyVal.dict (some "3") 1, PyVal.dict (some "5") 2])
          : Except Unit (Option (List PyVal)))) false).2.2
      = [(some 3, 5, false)] ∧
    (get_or_fetch (HistoryCache.mk [] true) "Sensor.Temp" 3 5
        (fun _ _ _ => (Except.ok (some [PyVal.dict (some "3") 1, PyVal.dict (some "5") 2])
          : Except Unit (Option (List PyVal)))) false).2.1
      = (if isTruthy (some [PyVal.dict (some "3") 1, PyVal.dict (some "5") 2]) then
          update_cache (HistoryCache.mk [] true) "Sensor.Temp"
            ((some [PyVal.dict (some "3") 1, PyVal.dict (some "5") 2]).getD []) 5
         else HistoryCache.mk [] true) ∧
    (isTruthy (some [PyVal.dict (some "3") 1, PyVal.dict (some "5") 2]) = true →
      (alLookup (get_or_fetch (HistoryCache.mk [] true) "Sensor.Temp" 3 5
          (fun _ _ _ => (Except.ok (some [PyVal.dict (some "3") 1, PyVal.dict (some "5") 2])
            : Except Unit (Option (List PyVal)))) false).2.1.cache_data
        (pyLower "Sensor.Temp")).isSome = true) :=
  C7_cold_entity_full_fetch (HistoryCache.mk [] true) "Sensor.Temp" 3 5
    (fun _ _ _ => (Except.ok (some [PyVal.dict (some "3") 1, PyVal.dict (some "5") 2])
      : Except Unit (Option (List PyVal)))) false rfl rfl
    (some [PyVal.dict (some "3") 1, PyVal.dict (some "5") 2]) rfl

/-- C8: `update_cache` unwraps a nested `[[...]]` input exactly one level
before merging, and the unwrap is not recursive: on `[[r]]` for a
well-formed record `r` the (fresh) entry stores exactly `r`, while on
`[[[r]]]` the surviving element is still a list, is skipped as malformed,
and the entry stays empty. -/
theorem C8_nested_unwrap_once (c : HistoryCache) (eid : String) (t : Int)
    (lc : Option String) (p : Nat) (ts : Int) (hen : c.enabled = true)
    (hlk : alLookup c.cache_data (pyLower eid) = none)
    (hts : get_timestamp (PyVal.dict lc p) = some ts) :
    alLookup (update_cache c eid [PyVal.list [PyVal.dict lc p]] t).cache_data
        (pyLower eid) = some ⟨[PyVal.dict lc p], some ts⟩ ∧
    alLookup (update_cache c eid [PyVal.list [PyVal.list [PyVal.dict lc p]]] t).cache_data
        (pyLower eid) = some ⟨[], none⟩ := by
  constructor
  · rw [update_cache_eq c eid [PyVal.list [PyVal.dict lc p]] t hen rfl,
      alLookup_alInsert_self, lookup_ensureEntry_self, hlk]
    show some (mergeEntry ⟨[], none⟩ [PyVal.dict lc p]) = _
    rw [mergeEntry_eq]
    simp [insertedItems, hts, sortByTs, List.insertionSort, List.orderedInsert,
      maxTs, omax, List.filterMap_cons]
  · rw [update_cache_eq c eid [PyVal.list [PyVal.list [PyVal.dict lc p]]] t hen rfl,
      alLookup_alInsert_self, lookup_ensureEntry_self, hlk]
    show some (mergeEntry ⟨[], none⟩ [PyVal.list [PyVal.dict lc p]]) = _
    rw [mergeEntry_eq]
    simp [insertedItems, sortByTs, List.insertionSort, maxTs]

theorem C8_nested_unwrap_once_witness :
    alLookup (update_cache (HistoryCache.mk [] true) "e"
        [PyVal.list [PyVal.dict (some "3") 0]] 10).cache_data (pyLower "e")
      = some ⟨[PyVal.dict (some "3") 0], some 3⟩ ∧
    alLookup (update_cache (HistoryCache.mk [] true) "e"
        [PyVal.list [PyVal.list [PyVal.dict (some "3") 0]]] 10).cache_data (pyLower "e")
      = some ⟨[], none⟩ :=
  C8_nested_unwrap_once (HistoryCache.mk [] true) "e" 10 (some "3") 0 3 rfl rfl rfl

/-- C9: a new item whose timestamp equals one already stored is silently
discarded and the whole cache state — in particular the stored item — is
left exactly as it was, even when the new item's payload differs. -/
theorem C9_duplicate_timestamp_discarded (c : HistoryCache) (eid : String) (t : Int)
    (entry : CacheEntry) (newItem : PyVal) (ts : Int) (hen : c.enabled = true)
    (hlk : alLookup c.cache_data (pyLower eid) = some entry)
    (hsorted : entry.data.Pairwise itemLE)
    (hts : get_timestamp newItem = some ts)
    (hmem : ts ∈ entry.data.filterMap get_timestamp) :
    update_cache c eid [newItem] t = c := by
  cases newItem with
  | dict lc p =>
    rw [update_cache_eq c eid [PyVal.dict lc p] t hen rfl]
    have hcd : ensureEntry c.cache_data (pyLower eid) = c.cache_data := by
      simp [ensureEntry, hlk]
    rw [hcd, hlk]
    show HistoryCache.mk
        (alInsert c.cache_data (pyLower eid)
          (mergeEntry entry (normalizeNewData [PyVal.dict lc p]))) c.enabled = c
    have hm : mergeEntry entry (normalizeNewData [PyVal.dict lc p]) = entry := by
      show mergeEntry entry [PyVal.dict lc p] = entry
      rw [mergeEntry_eq]
      have hins : insertedItems (entry.data.filterMap get_timestamp)
          [PyVal.dict lc p] = [] := by
        simp [insertedItems, hts, hmem]
      rw [hins]
      simp [sortByTs_of_sorted hsorted]
    rw [hm, alInsert_lookup_self c.cache_data _ entry hlk]
  | list l => simp [get_timestamp] at hts
  | other n => simp [get_timestamp] at hts

theorem C9_duplicate_timestamp_discarded_witness :
    update_cache (HistoryCache.mk [("e", ⟨[PyVal.dict (some "5") 0], some 5⟩)] true)
        "e" [PyVal.dict (some "5") 99] 10
      = HistoryCache.mk [("e", ⟨[PyVal.dict (some "5") 0], some 5⟩)] true :=
  C9_duplicate_timestamp_discarded
    (HistoryCache.mk [("e", ⟨[PyVal.dict (some "5") 0], some 5⟩)] true) "e" 10
    ⟨[PyVal.dict (some "5") 0], some 5⟩ (PyVal.dict (some "5") 99) 5
    rfl rfl (by decide) rfl (by decide)

/-- C10 counterexample: `new_data = [[r]]` for a well-formed `r` consists
solely of non-mapping items (its one element is a list), yet `update_cache`
on a fresh enabled cache produces an entry holding `r` with `latest` set —
not an empty entry — because the one-level unwrap runs first. -/
theorem C10_counterexample :
    (∀ item ∈ ([PyVal.list [PyVal.dict (some "5") 0]] : List PyVal),
      get_timestamp item = none) ∧
    alLookup (update_cache (HistoryCache.mk [] true) "e"
        [PyVal.list [PyVal.dict (some "5") 0]] 10).cache_data (pyLower "e")
      = some ⟨[PyVal.dict (some "5") 0], some 5⟩ := by
  constructor
  · decide
  · rfl

/-- C10 amended: on an enabled cache with no entry for the key, a non-empty
`new_data` whose first element is not itself a list and all of whose items
are malformed (non-dict, or without a parseable timestamp) still creates an
entry for the lower-cased key, with empty data and absent `latest`. -/
theorem C10_malformed_creates_empty_entry (c : HistoryCache) (eid : String)
    (D : List PyVal) (t : Int) (hen : c.enabled = true)
    (hlk : alLookup c.cache_data (pyLower eid) = none) (hne : D ≠ [])
    (hhead : ∀ l rest, D ≠ PyVal.list l :: rest)
    (hmal : ∀ item ∈ D, get_timestamp item = none) :
    alLookup (update_cache c eid D t).cache_data (pyLower eid)
      = some ⟨[], none⟩ := by
  have hne2 : D.isEmpty = false := by
    cases D with
    | nil => exact absurd rfl hne
    | cons hd tl => rfl
  rw [update_cache_eq c eid D t hen hne2, alLookup_alInsert_self,
    lookup_ensureEntry_self, hlk]
  have hnorm : normalizeNewData D = D := by
    cases D with
    | nil => rfl
    | cons hd tl =>
      cases hd with
      | dict lc p => rfl
      | list l => exact absurd rfl (hhead l tl)
      | other n => rfl
  show some (mergeEntry ⟨[], none⟩ (normalizeNewData D)) = _
  rw [hnorm, mergeEntry_eq]
  have hins : insertedItems (List.filterMap get_timestamp ([] : List PyVal)) D = [] := by
    apply insertedItems_eq_nil
    intro x hx
    obtain ⟨q, hq, hqx⟩ := List.mem_filterMap.mp hx
    rw [hmal q hq] at hqx
    exact Option.noConfusion hqx
  rw [hins]
  simp [sortByTs, List.insertionSort, maxTs]

theorem C10_malformed_creates_empty_entry_witness :
    alLookup (update_cache (HistoryCache.mk [] true) "e"
        [PyVal.other 7, PyVal.dict (some "x") 2, PyVal.dict none 3] 10).cache_data
        (pyLower "e")
      = some ⟨[], none⟩ :=
  C10_malformed_creates_empty_entry (HistoryCache.mk [] true) "e"
    [PyVal.other 7, PyVal.dict (some "x") 2, PyVal.dict none 3] 10 rfl rfl
    (fun h => List.noConfusion h) (fun l rest h => by simp at h) (by decide)

/-- C3: on an enabled cache whose entry for the lower-cased entity has
`latest = t1`, a call `get_or_fetch(entity, t0, t2)` with `t0 < t1 < t2`
invokes the fetch function once with the delta window `[t1, t2]` (not
`[t0, t2]`), merges a truthy result via `update_cache` without returning it
directly, prunes from storage the leading items with timestamp below `t0`,
and returns the entry's remaining stored items with timestamp at most
`t2`. -/
theorem C3_delta_fetch_and_prune {ε : Type} (c : HistoryCache) (eid : String)
    (t0 t1 t2 : Int) (f : Option Int → Int → Bool → Except ε (Option (List PyVal)))
    (m : Bool) (entry : CacheEntry) (nd : Option (List PyVal))
    (hen : c.enabled = true)
    (hlk : alLookup c.cache_data (pyLower eid) = some entry)
    (hlat : entry.latest = some t1) (h01 : t0 < t1) (h12 : t1 < t2)
    (hf : f (some t1) t2 m = Except.ok nd) :
    get_or_fetch c eid t0 t2 f m =
      (Except.ok (some (filterLeEnd t2 (pruneLeading t0
          ((alLookup (if isTruthy nd then update_cache c eid (nd.getD []) t2 else c).cache_data
            (pyLower eid)).getD ⟨[], none⟩).data))),
       HistoryCache.mk
         (alInsert (if isTruthy nd then update_cache c eid (nd.getD []) t2 else c).cache_data
           (pyLower eid)
           ⟨pruneLeading t0
              ((alLookup (if isTruthy nd then update_cache c eid (nd.getD []) t2 else c).cache_data
                (pyLower eid)).getD ⟨[], none⟩).data,
            ((alLookup (if isTruthy nd then update_cache c eid (nd.getD []) t2 else c).cache_data
              (pyLower eid)).getD ⟨[], none⟩).latest⟩)
         (if isTruthy nd then update_cache c eid (nd.getD []) t2 else c).enabled,
       [(some t1, t2, m)]) := by
  have hf2 : f entry.latest t2 m = Except.ok nd := by
    rw [hlat]
    exact hf
  have h := get_or_fetch_entry_ok c eid t0 t2 f m hen entry hlk nd hf2 _ rfl _ rfl
  rw [h, hlat]

theorem C3_delta_fetch_and_prune_witness :
    get_or_fetch
        (HistoryCache.mk
          [("e", ⟨[PyVal.dict (some "3") 0, PyVal.dict (some "5") 0], some 5⟩)] true)
        "e" 4 20
        (fun _ _ _ => (Except.ok (some [PyVal.dict (some "7") 9])
          : Except Unit (Option (List PyVal)))) false
      = (Except.ok (some [PyVal.dict (some "5") 0, PyVal.dict (some "7") 9]),
         HistoryCache.mk
           [("e", ⟨[PyVal.dict (some "5") 0, PyVal.dict (some "7") 9], some 7⟩)] true,
         [(some 5, 20, false)]) :=
  C3_delta_fetch_and_prune
    (HistoryCache.mk
      [("e", ⟨[PyVal.dict (some "3") 0, PyVal.dict (some "5") 0], some 5⟩)] true)
    "e" 4 5 20
    (fun _ _ _ => (Except.ok (some [PyVal.dict (some "7") 9])
      : Except Unit (Option (List PyVal)))) false
    ⟨[PyVal.dict (some "3") 0, PyVal.dict (some "5") 0], some 5⟩
    (some [PyVal.dict (some "7") 9])
    rfl rfl rfl (by decide) (by decide) rfl

/-- C1 counterexample: an enabled cache holds the entry
`⟨[item@5], latest = 5⟩` for `"e"`; `get_or_fetch("e", 10, 20)` with a fetch
returning `None` prunes the item at 5 from storage, emptying the stored
sequence, yet `latest` stays `some 5` instead of becoming absent — the
claimed invariant fails after this in-place prune. -/
theorem C1_counterexample :
    (get_or_fetch (HistoryCache.mk [("e", ⟨[PyVal.dict (some "5") 0], some 5⟩)] true)
        "e" 10 20 (fun _ _ _ => (Except.ok none : Except Unit (Option (List PyVal))))
        false).2.1
      = HistoryCache.mk [("e", ⟨[], some 5⟩)] true := by
  rfl

theorem mergeEntry_remerge (E0 : CacheEntry) (nd : List PyVal) :
    mergeEntry (mergeEntry E0 nd) nd
      = ⟨sortByTs (mergeEntry E0 nd).data, (mergeEntry E0 nd).latest⟩ := by
  have hsub : ∀ x ∈ nd.filterMap get_timestamp,
      x ∈ (mergeEntry E0 nd).data.filterMap get_timestamp := by
    intro x hx
    rw [mergeEntry_eq]
    have hperm := List.Perm.filterMap get_timestamp
      (sortByTs_perm (E0.data ++ insertedItems (E0.data.filterMap get_timestamp) nd))
    rw [hperm.mem_iff, List.filterMap_append, insertedItems_filterMap]
    by_cases hmem : x ∈ E0.data.filterMap get_timestamp
    · exact List.mem_append_left _ hmem
    · refine List.mem_append_right _ ?_
      rw [List.mem_filter]
      exact ⟨hx, by simp [hmem]⟩
  rw [mergeEntry_eq (mergeEntry E0 nd) nd, insertedItems_eq_nil _ _ hsub]
  simp

/-- C4: merging the same data twice in a row on an enabled cache leaves the
entry's stored length unchanged by the second call — timestamps already
present are never inserted again. -/
theorem C4_idempotent_merge (c : HistoryCache) (eid : String) (D : List PyVal)
    (t : Int) (hen : c.enabled = true) :
    (alLookup (update_cache (update_cache c eid D t) eid D t).cache_data
        (pyLower eid)).map (fun e => e.data.length)
      = (alLookup (update_cache c eid D t).cache_data (pyLower eid)).map
          (fun e => e.data.length) := by
  by_cases hD : D.isEmpty = true
  · rw [update_cache_noop c eid D t (Or.inr hD),
      update_cache_noop c eid D t (Or.inr hD)]
  · have hne : D.isEmpty = false := by
      cases hv : D.isEmpty
      · rfl
      · exact absurd hv hD
    rw [update_cache_eq c eid D t hen hne]
    set k := pyLower eid with hk
    set nd := normalizeNewData D with hnd
    set E0 := (alLookup (ensureEntry c.cache_data k) k).getD ⟨[], none⟩ with hE0
    set e1 := mergeEntry E0 nd with he1
    set cd1 := alInsert (ensureEntry c.cache_data k) k e1 with hcd1
    rw [update_cache_eq (HistoryCache.mk cd1 c.enabled) eid D t hen hne]
    have hlk1 : alLookup cd1 k = some e1 := by
      rw [hcd1]
      exact alLookup_alInsert_self _ _ _
    have hens : ensureEntry cd1 k = cd1 := by
      simp [ensureEntry, hlk1]
    show (alLookup (alInsert (ensureEntry cd1 k) k
        (mergeEntry ((alLookup (ensureEntry cd1 k) k).getD ⟨[], none⟩) nd)) k).map
          (fun e => e.data.length)
      = (alLookup cd1 k).map (fun e => e.data.length)
    rw [hens, hlk1, alLookup_alInsert_self]
    show some (mergeEntry e1 nd).data.length = some e1.data.length
    rw [he1, mergeEntry_remerge]
    show some (sortByTs (mergeEntry E0 nd).data).length
      = some (mergeEntry E0 nd).data.length
    rw [(sortByTs_perm _).length_eq]

theorem C4_idempotent_merge_witness :
    (alLookup (update_cache (update_cache (HistoryCache.mk [] true) "e"
        [PyVal.dict (some "5") 0, PyVal.dict (some "3") 1] 10) "e"
        [PyVal.dict (some "5") 0, PyVal.dict (some "3") 1] 10).cache_data
        (pyLower "e")).map (fun e => e.data.length)
      = (alLookup (update_cache (HistoryCache.mk [] true) "e"
          [PyVal.dict (some "5") 0, PyVal.dict (some "3") 1] 10).cache_data
          (pyLower "e")).map (fun e => e.data.length) :=
  C4_idempotent_merge (HistoryCache.mk [] true) "e"
    [PyVal.dict (some "5") 0, PyVal.dict (some "3") 1] 10 rfl

/-- C2 counterexample: merging a batch that repeats one timestamp inserts
both items — the frozen duplicate set is only built from items already
stored, so after the merge the entry holds two items with timestamp 5. -/
theorem C2_counterexample :
    (alLookup (update_cache (HistoryCache.mk [] true) "e"
        [PyVal.dict (some "5") 0, PyVal.dict (some "5") 1] 10).cache_data
        (pyLower "e")).map (fun e => e.data.filterMap get_timestamp)
      = some [5, 5] ∧
    ¬ ([5, 5] : List Int).Nodup :=
  ⟨rfl, by decide⟩

/-- C2 amended: after a merge the stored sequence has no duplicate
timestamps, provided the entry's stored timestamps were duplicate-free
before the merge and the normalized `new_data` itself carries no two
well-formed items with an identical timestamp; a new item whose timestamp
is already stored is skipped, so duplicates can arise only within one
batch. -/
theorem C2_no_new_duplicate_timestamps (c : HistoryCache) (eid : String)
    (D : List PyVal) (t : Int) (hen : c.enabled = true)
    (hnodup0 : (((alLookup c.cache_data (pyLower eid)).getD ⟨[], none⟩).data.filterMap
        get_timestamp).Nodup)
    (hnodupD : ((normalizeNewData D).filterMap get_timestamp).Nodup) :
    ∀ e1, alLookup (update_cache c eid D t).cache_data (pyLower eid) = some e1 →
      (e1.data.filterMap get_timestamp).Nodup := by
  intro e1 hlk1
  by_cases hD : D.isEmpty = true
  · rw [update_cache_noop c eid D t (Or.inr hD)] at hlk1
    rw [hlk1] at hnodup0
    exact hnodup0
  · have hne : D.isEmpty = false := by
      cases hv : D.isEmpty
      · rfl
      · exact absurd hv hD
    rw [update_cache_eq c eid D t hen hne, alLookup_alInsert_self] at hlk1
    injection hlk1 with hlk1
    subst hlk1
    rw [mergeEntry_eq]
    show ((sortByTs _).filterMap get_timestamp).Nodup
    have hperm := List.Perm.filterMap get_timestamp
      (sortByTs_perm (((alLookup (ensureEntry c.cache_data (pyLower eid))
          (pyLower eid)).getD ⟨[], none⟩).data
        ++ insertedItems (((alLookup (ensureEntry c.cache_data (pyLower eid))
            (pyLower eid)).getD ⟨[], none⟩).data.filterMap get_timestamp)
          (normalizeNewData D)))
    rw [hperm.nodup_iff, List.filterMap_append, insertedItems_filterMap]
    rw [lookup_ensureEntry_self]
    apply List.Nodup.append
    · exact hnodup0
    · exact hnodupD.filter _
    · intro a ha hafil
      rw [List.mem_filter] at hafil
      have := hafil.2
      simp only [Bool.not_eq_true'] at this
      rw [decide_eq_false_iff_not] at this
      exact this ha

/-- C1 amended: `update_cache` preserves the full entry invariant (items
time-sorted ascending, `latest` equal to the maximum stored timestamp); the
in-place prune of `get_or_fetch` preserves sortedness and preserves
`latest = max` whenever the pruned sequence is non-empty — but when the
prune empties the sequence, `latest` keeps its old value instead of
becoming absent. -/
theorem C1_invariant_after_mutation :
    (∀ (c : HistoryCache) (eid : String) (nd : List PyVal) (t : Int),
      CacheInvariant c → CacheInvariant (update_cache c eid nd t)) ∧
    (∀ (ε : Type) (c : HistoryCache) (eid : String) (t0 t1 : Int)
      (f : Option Int → Int → Bool → Except ε (Option (List PyVal))) (m : Bool),
      CacheInvariant c →
        ∀ k e, alLookup (get_or_fetch c eid t0 t1 f m).2.1.cache_data k = some e →
          e.data.Pairwise itemLE ∧ (e.data ≠ [] → e.latest = maxTs e.data)) := by
  constructor
  · exact fun c eid nd t h => update_cache_invariant c eid nd t h
  · intro ε c eid t0 t1 f m hinv k e hk
    cases hen : c.enabled
    · rw [get_or_fetch_disabled c eid t0 t1 f m hen] at hk
      exact ⟨(hinv k e hk).1, fun _ => (hinv k e hk).2⟩
    · cases hlk : alLookup c.cache_data (pyLower eid) with
      | none =>
        cases hf : f (some t0) t1 m with
        | error err =>
          rw [get_or_fetch_no_entry_error c eid t0 t1 f m hen hlk err hf] at hk
          exact ⟨(hinv k e hk).1, fun _ => (hinv k e hk).2⟩
        | ok nd =>
          rw [get_or_fetch_no_entry_ok c eid t0 t1 f m hen hlk nd hf] at hk
          by_cases ht : isTruthy nd = true
          · rw [if_pos ht] at hk
            have h2 := update_cache_invariant c eid (nd.getD []) t1 hinv k e hk
            exact ⟨h2.1, fun _ => h2.2⟩
          · rw [if_neg ht] at hk
            exact ⟨(hinv k e hk).1, fun _ => (hinv k e hk).2⟩
      | some entry =>
        cases hf : f entry.latest t1 m with
        | error err =>
          rw [get_or_fetch_entry_error c eid t0 t1 f m hen entry hlk err hf] at hk
          exact ⟨(hinv k e hk).1, fun _ => (hinv k e hk).2⟩
        | ok nd =>
          rw [get_or_fetch_entry_ok c eid t0 t1 f m hen entry hlk nd hf _ rfl _ rfl] at hk
          have hinv1 : CacheInvariant
              (if isTruthy nd then update_cache c eid (nd.getD []) t1 else c) := by
            by_cases ht : isTruthy nd = true
            · rw [if_pos ht]
              exact update_cache_invariant _ _ _ _ hinv
            · rw [if_neg ht]
              exact hinv
          have hentry1 : EntryInvariant
              ((alLookup (if isTruthy nd then
                  update_cache c eid (nd.getD []) t1 else c).cache_data
                (pyLower eid)).getD ⟨[], none⟩) := by
            cases hl1 : alLookup (if isTruthy nd then
                update_cache c eid (nd.getD []) t1 else c).cache_data (pyLower eid) with
            | none => exact entryInvariant_empty
            | some v => exact hinv1 _ _ hl1
          rcases alLookup_alInsert_cases _ _ _ _ _ hk with he | he
          · subst he
            have hp := pruneEntry_invariant _ t0 hentry1
            exact ⟨hp.1, fun hne => hp.2 hne⟩
          · have h2 := hinv1 k e he
            exact ⟨h2.1, fun _ => h2.2⟩

theorem C1_invariant_after_mutation_witness :
    EntryInvariant ⟨[PyVal.dict (some "3") 0], some 3⟩ :=
  C1_invariant_after_mutation.1 (HistoryCache.mk [] true) "e"
    [PyVal.dict (some "3") 0] 10 (fun _ _ h => Option.noConfusion h) "e"
    ⟨[PyVal.dict (some "3") 0], some 3⟩ rfl

theorem C2_no_new_duplicate_timestamps_witness :
    ((CacheEntry.mk [PyVal.dict (some "3") 1, PyVal.dict (some "5") 0]
        (some 5)).data.filterMap get_timestamp).Nodup :=
  C2_no_new_duplicate_timestamps (HistoryCache.mk [] true) "e"
    [PyVal.dict (some "5") 0, PyVal.dict (some "3") 1] 10 rfl (by decide) (by decide)
    ⟨[PyVal.dict (some "3") 1, PyVal.dict (some "5") 0], some 5⟩ rfl
